import Mathlib

/-!
Verification development for the URL shortener in `app.py` (Flask + SQLAlchemy).

The Python source is shallowly embedded:
* the SQLAlchemy table of `URL` rows becomes a `List URLRow` in insertion
  (rowid) order; `Model.query.filter_by(...).first()` becomes `List.find?`;
* the random candidate generator `generate_short_code` is modelled as an
  explicit stream `gen : Nat → String` of candidate codes (attempt number to
  candidate), since its only property used by the program is the sequence of
  candidates it yields;
* the HTTP handlers `shorten_url`, `redirect_url` and `get_stats` become pure
  functions from their inputs and the current store to an outcome and the new
  store; `shorten_url` additionally records the trace of store operations it
  performs, so that "no store access happens before validation" is provable;
* Python exceptions become `Except`; the unbounded `while True` retry loop in
  `shorten_url` is modelled with explicit fuel, where running out of fuel
  (`outOfFuel`) is a modelling artifact meaning "the loop is still running",
  not an error produced by the program;
* character classes of the validation regex are read over ASCII, matching all
  inputs considered here.
-/

namespace UrlShortener

/-! ### Character classes (ASCII reading of the Python regex classes) -/

/-- Python `\s` is `[ \t\n\r\x0b\x0c]` on ASCII; `\S` is its complement. -/
def isPySpace (c : Char) : Bool :=
  c == ' ' || c == '\t' || c == '\n' || c == '\r' || c == '\x0b' || c == '\x0c'

/-- Characters that can occur in any of the three host alternatives of the
regex (domain labels `[A-Z0-9-]` and dots, `localhost`, digit quads). -/
def isHostChar (c : Char) : Bool := c.isAlphanum || c == '.' || c == '-'

/-- Characters allowed inside a domain label: `[A-Z0-9-]` with `IGNORECASE`. -/
def isLabelChar (c : Char) : Bool := c.isAlphanum || c == '-'

/-! ### The validation regex of `is_valid_url` (app.py lines 105-113)

```
^https?://
(?:(?:[A-Z0-9](?:[A-Z0-9-]{0,61}[A-Z0-9])?\.)+[A-Z]{2,6}\.?|localhost|
   \d{1,3}\.\d{1,3}\.\d{1,3}\.\d{1,3})
(?::\d+)?
(?:/?|[/?]\S+)$     (re.IGNORECASE, re.match)
```

The regex is hand-compiled to a deterministic checker.  This is sound because
the pattern is unambiguous at every choice point:
* the host alternatives only use characters in `isHostChar`, and whatever
  follows the host (`:` port, `/` or `?` tail, end of string, or the trailing
  newline admitted by Python's `$`) is never in `isHostChar`, so the host is
  exactly the maximal run of `isHostChar` characters;
* inside the host, labels and the TLD contain no dots, so the decomposition
  `(label\.)+ TLD \.?` is exactly the split of the host on `.` (after removing
  the single optional trailing dot);
* the port digits are followed by a non-digit (`/`, `?`, end, or final `\n`),
  so `\d+` is the maximal run of digits;
* Python's `$` (without `MULTILINE`) matches at the end of the string or just
  before a newline that is the last character, hence the single optional
  trailing `'\n'` stripped in `tailOk`.
-/

/-- One domain label `[A-Z0-9](?:[A-Z0-9-]{0,61}[A-Z0-9])?` (with
`IGNORECASE`): 1 to 63 characters, alphanumeric or `-`, first and last
alphanumeric. -/
def labelOk (l : List Char) : Bool :=
  decide (1 ≤ l.length) && decide (l.length ≤ 63) && l.all isLabelChar &&
    l.head?.any Char.isAlphanum && l.getLast?.any Char.isAlphanum

/-- The TLD `[A-Z]{2,6}` (with `IGNORECASE`): 2 to 6 letters. -/
def tldOk (t : List Char) : Bool :=
  decide (2 ≤ t.length) && decide (t.length ≤ 6) && t.all Char.isAlpha

/-- The domain alternative `(?:label\.)+[A-Z]{2,6}\.?` applied to the whole
host: strip the one optional trailing dot, split on dots, require at least one
label before a final TLD. -/
def domainOk (h : List Char) : Bool :=
  let h2 := if h.getLast? == some '.' then h.dropLast else h
  match (h2.splitOn '.').reverse with
  | [] => false
  | tld :: labels => decide (labels ≠ []) && tldOk tld && labels.all labelOk

/-- One group `\d{1,3}` of the dotted quad. -/
def quadOk (g : List Char) : Bool :=
  decide (1 ≤ g.length) && decide (g.length ≤ 3) && g.all Char.isDigit

/-- The IP alternative `\d{1,3}\.\d{1,3}\.\d{1,3}\.\d{1,3}` applied to the
whole host.  Note the regex does not range-check the groups. -/
def ipOk (h : List Char) : Bool :=
  match h.splitOn '.' with
  | [a, b, c, d] => quadOk a && quadOk b && quadOk c && quadOk d
  | _ => false

/-- The `localhost` alternative (case-insensitive). -/
def localhostOk (h : List Char) : Bool :=
  h.map Char.toLower == ['l', 'o', 'c', 'a', 'l', 'h', 'o', 's', 't']

/-- The full host alternation of the regex. -/
def hostOk (h : List Char) : Bool := domainOk h || localhostOk h || ipOk h

/-- Helper for the literal `//` after the scheme. -/
def afterSlashes : List Char → Option (List Char)
  | '/' :: '/' :: r => some r
  | _ => none

/-- Matches `^https?://` with `IGNORECASE`: on success, returns what follows `://`. -/
def stripSchemeChars (cs : List Char) : Option (List Char) :=
  match cs with
  | a :: b :: c :: d :: rest =>
    if a.toLower == 'h' && b.toLower == 't' && c.toLower == 't' && d.toLower == 'p' then
      match rest with
      | [] => none
      | x :: rest2 =>
        if x == ':' then afterSlashes rest2
        else if x.toLower == 's' then
          match rest2 with
          | [] => none
          | y :: rest3 => if y == ':' then afterSlashes rest3 else none
        else none
    else none
  | _ => none

/-- The tail alternation `(?:/?|[/?]\S+)` matched against an entire remaining
string (with no trailing-newline handling): empty, a bare `/`, or `/` or `?`
followed by one or more non-whitespace characters. -/
def TailOkChars (t : List Char) : Bool :=
  t == [] || t == ['/'] ||
    ((t.head? == some '/' || t.head? == some '?') && decide (t.tail ≠ []) &&
      t.tail.all (fun d => !isPySpace d))

/-- The tail `(?:/?|[/?]\S+)$` including Python's `$`, which also matches just
before a newline that is the last character: strip one optional final `'\n'`,
then check the tail alternation. -/
def tailOk (r : List Char) : Bool :=
  TailOkChars (if r.getLast? == some '\n' then r.dropLast else r)

/-- The optional port `(?::\d+)?` followed by the tail: if the remainder
starts with `:` followed by a digit, the port consumes the maximal digit run;
otherwise the port option is skipped and the tail must match the remainder
directly. -/
def portTailOk (r : List Char) : Bool :=
  if r.head? == some ':' then
    if r.tail.head?.any Char.isDigit then tailOk (r.tail.dropWhile Char.isDigit)
    else tailOk r
  else tailOk r

/-- The validator `is_valid_url` (app.py lines 105-113): `pattern.match(url) is not None`. -/
def is_valid_url (url : String) : Bool :=
  match stripSchemeChars url.data with
  | none => false
  | some rest =>
    hostOk (rest.takeWhile isHostChar) && portTailOk (rest.dropWhile isHostChar)

/-! ### The spec's URL-shape policy, for comparison (claim C6)

The following definitions follow the words of the spec, not the code:
"scheme `http`/`https`, valid host — domain name, `localhost`, or dotted-quad
IPv4 — optional port, optional path/query".  A dotted-quad IPv4 address has
four octets with values 0..255; a URL contains no whitespace, in particular no
trailing newline. -/

/-- Numeric value of a digit group. -/
def digitsVal (g : List Char) : Nat :=
  g.foldl (fun n c => n * 10 + (c.toNat - 48)) 0

/-- An IPv4 octet per the spec: one to three digits with value at most 255. -/
def octetOk (g : List Char) : Bool :=
  quadOk g && decide (digitsVal g ≤ 255)

/-- Dotted-quad IPv4 address per the spec: four octets, each 0..255. -/
def ipStrictOk (h : List Char) : Bool :=
  match h.splitOn '.' with
  | [a, b, c, d] => octetOk a && octetOk b && octetOk c && octetOk d
  | _ => false

/-- Optional path/query per the spec: empty, or starting with `/` or `?`,
containing no whitespace anywhere. -/
def specTailOk (t : List Char) : Bool :=
  t == [] ||
    (match t with
     | [] => false
     | c :: rest => (c == '/' || c == '?') && rest.all (fun d => !isPySpace d))

/-- Optional port then optional path/query, per the spec. -/
def specPortTailOk (r : List Char) : Bool :=
  match r with
  | ':' :: rest =>
    decide (rest.takeWhile Char.isDigit ≠ []) && specTailOk (rest.dropWhile Char.isDigit)
  | _ => specTailOk r

/-- The spec's URL-shape policy, following the spec's words (comparison
target for claim C6; distinct from the code's `is_valid_url`). -/
def urlShapeSpec (url : String) : Bool :=
  match stripSchemeChars url.data with
  | none => false
  | some rest =>
    let host := rest.takeWhile isHostChar
    (domainOk host || localhostOk host || ipStrictOk host) &&
      specPortTailOk (rest.dropWhile isHostChar)

/-! ### The amended, declarative URL shape (claim C6, amended)

A declarative decomposition of the accepted language, to be proved equivalent
to the deterministic checker `is_valid_url`. -/

/-- A scheme is `http` or `https`, case-insensitively. -/
def SchemeOkChars (sch : List Char) : Bool :=
  sch.map Char.toLower == ['h', 't', 't', 'p'] ||
    sch.map Char.toLower == ['h', 't', 't', 'p', 's']

/-- An optional port component: empty, or `:` followed by one or more digits. -/
def PortOkChars (p : List Char) : Bool :=
  p == [] || (p.head? == some ':' && decide (p.tail ≠ []) && p.tail.all Char.isDigit)

/-- An optional final newline (admitted by Python's `$`). -/
def NlOkChars (n : List Char) : Bool := n == [] || n == ['\n']

/-- The amended URL shape: scheme `http`/`https` (case-insensitive), `://`, a
nonempty host made of alphanumerics, dots and hyphens that is a dotted domain
with 1-63-character labels and a 2-6-letter TLD (optional trailing dot),
`localhost`, or four dot-separated groups of one to three digits (values not
range-checked), then an optional `:`-digits port, then an empty tail, a bare
`/`, or `/` or `?` followed by non-whitespace, then at most one final newline. -/
def UrlShapeAmended (url : String) : Prop :=
  ∃ sch host port tl nl,
    url.data = sch ++ ':' :: '/' :: '/' :: (host ++ port ++ tl ++ nl) ∧
    SchemeOkChars sch = true ∧ host.all isHostChar = true ∧ hostOk host = true ∧
    PortOkChars port = true ∧ TailOkChars tl = true ∧ NlOkChars nl = true

/-! ### Timestamps

`created_at` is a `DateTime` column defaulting to the store's
`current_timestamp()` (second precision), and `get_stats` returns
`url.created_at.isoformat()`.  Python's `datetime.isoformat` for a
microsecond-zero value prints `YYYY-MM-DDTHH:MM:SS`, each field zero-padded. -/

structure PyDateTime where
  year : Nat
  month : Nat
  day : Nat
  hour : Nat
  minute : Nat
  second : Nat
deriving DecidableEq, Repr

/-- The decimal digit character for `n % 10`. -/
def digitChar (n : Nat) : Char := Char.ofNat (48 + n % 10)

/-- Two-digit zero-padded print (exact for values below 100, as all
month/day/hour/minute/second values of a Python `datetime` are). -/
def pad2Chars (n : Nat) : List Char := [digitChar (n / 10), digitChar n]

/-- Four-digit zero-padded print (exact for values below 10000, as all year
values of a Python `datetime` are). -/
def pad4Chars (n : Nat) : List Char :=
  [digitChar (n / 1000), digitChar (n / 100), digitChar (n / 10), digitChar n]

/-- Python's `datetime.isoformat()` for a microsecond-zero value. -/
def isoformat (d : PyDateTime) : String :=
  ⟨pad4Chars d.year ++ '-' :: (pad2Chars d.month ++ '-' :: (pad2Chars d.day ++
    'T' :: (pad2Chars d.hour ++ ':' :: (pad2Chars d.minute ++ ':' :: pad2Chars d.second))))⟩

/-- An ISO-8601 combined date-time of the form `YYYY-MM-DDTHH:MM:SS`. -/
def isIso8601 (s : String) : Bool :=
  match s.data with
  | [y1, y2, y3, y4, a, m1, m2, b, d1, d2, t, h1, h2, c, n1, n2, e, s1, s2] =>
    y1.isDigit && y2.isDigit && y3.isDigit && y4.isDigit && a == '-' &&
      m1.isDigit && m2.isDigit && b == '-' && d1.isDigit && d2.isDigit &&
      t == 'T' && h1.isDigit && h2.isDigit && c == ':' &&
      n1.isDigit && n2.isDigit && e == ':' && s1.isDigit && s2.isDigit
  | _ => false

/-! ### Data model: the `URL` table (app.py lines 79-84) -/

structure URLRow where
  id : Nat
  original_url : String
  short_code : String
  clicks : Nat
  created_at : PyDateTime
deriving DecidableEq, Repr

/-- The table, in insertion (rowid) order. -/
abbrev Store := List URLRow

/-- The query `URL.query.filter_by(original_url=u).first()`: first row matching by
exact string equality. -/
def findByOriginalUrl (s : Store) (u : String) : Option URLRow :=
  s.find? (fun r => r.original_url == u)

/-- The query `URL.query.filter_by(short_code=c).first()`. -/
def findByShortCode (s : Store) (c : String) : Option URLRow :=
  s.find? (fun r => r.short_code == c)

/-- Number of rows whose `original_url` equals `u` exactly. -/
def countUrl (s : Store) (u : String) : Nat :=
  s.countP (fun r => r.original_url == u)

/-- The update `url.clicks += 1; db.session.commit()` on the row loaded by
`filter_by(short_code=c).first()`: bump the clicks of the first row whose
code is `c`. -/
def incrementFirst : Store → String → Store
  | [], _ => []
  | r :: rs, c =>
    if r.short_code == c then { r with clicks := r.clicks + 1 } :: rs
    else r :: incrementFirst rs c

/-- The clicks counter of the mapping for `c`, if any. -/
def clicksOf (s : Store) (c : String) : Option Nat :=
  (findByShortCode s c).map (fun r => r.clicks)

/-- The store-level unique constraint on `short_code` (app.py line 82:
`unique=True`). -/
abbrev codesNodup (s : Store) : Prop := (s.map (fun r => r.short_code)).Nodup

/-! ### `shorten_url` (app.py lines 142-174) -/

/-- The 400-class validation failures of `shorten_url` (the spec's
`InvalidUrlError` taxon): `'URL is required'` for a missing or empty URL,
`'Invalid URL format'` for one rejected by `is_valid_url`. -/
inductive InvalidUrlError where
  | required
  | invalidFormat
deriving DecidableEq, Repr

inductive ShortenOutcome where
  | badRequest (e : InvalidUrlError)
  | ok (short_code : String)
  | outOfFuel
deriving DecidableEq, Repr

def ShortenOutcome.isBadRequest : ShortenOutcome → Bool
  | .badRequest _ => true
  | _ => false

/-- Store operations, recorded in order, to state "no store access before
validation". -/
inductive StoreOp where
  | queryByUrl (u : String)
  | queryByCode (c : String)
  | insertRow (r : URLRow)
deriving DecidableEq, Repr

structure ShortenRes where
  outcome : ShortenOutcome
  store : Store
  ops : List StoreOp
deriving DecidableEq, Repr

/-- The `while True` candidate loop (app.py lines 162-165): keep drawing
candidates until one is not in the store.  `i` is the index of the next
candidate, `fuel` bounds how many iterations we unfold (a modelling artifact:
the source loop is unbounded).  On success, returns the candidate together
with the number of failed attempts that preceded it. -/
def genLoop (gen : Nat → String) (taken : String → Bool) : Nat → Nat → Option (String × Nat)
  | _, 0 => none
  | i, fuel + 1 =>
    if taken (gen i) then genLoop gen taken (i + 1) fuel else some (gen i, i)

/-- Surrogate id for a fresh row (autoincrement primary key). -/
def nextId (s : Store) : Nat := s.length + 1

/-- The code-existence queries issued by the first `k` loop iterations. -/
def loopOps (gen : Nat → String) (k : Nat) : List StoreOp :=
  (List.range k).map (fun i => StoreOp.queryByCode (gen i))

/-- The handler `shorten_url` (app.py lines 142-174).  `input` is `data.get('url')`
(`none` for a missing key); the falsiness test `if not original_url` maps
`none` and the empty string to the 400 `'URL is required'` response.  `gen` is
the candidate stream of `generate_short_code`, `now` the insertion timestamp,
`fuel` the loop unfolding bound. -/
def shorten_url (gen : Nat → String) (now : PyDateTime) (fuel : Nat) (s : Store)
    (input : Option String) : ShortenRes :=
  match input with
  | none => ⟨.badRequest .required, s, []⟩
  | some u =>
    if u == "" then ⟨.badRequest .required, s, []⟩
    else if !is_valid_url u then ⟨.badRequest .invalidFormat, s, []⟩
    else
      match findByOriginalUrl s u with
      | some row => ⟨.ok row.short_code, s, [.queryByUrl u]⟩
      | none =>
        match genLoop gen (fun c => (findByShortCode s c).isSome) 0 fuel with
        | none => ⟨.outOfFuel, s, .queryByUrl u :: loopOps gen fuel⟩
        | some (c, n) =>
          let row : URLRow := ⟨nextId s, u, c, 0, now⟩
          ⟨.ok c, s ++ [row], .queryByUrl u :: (loopOps gen (n + 1) ++ [.insertRow row])⟩

/-! ### `log_click_event` (app.py lines 116-134) and `redirect_url` (177-194) -/

inductive PyErr where
  | attributeError
deriving DecidableEq, Repr

/-- Models the expression `datetime.now(datetime.UTC).isoformat()` at app.py
line 124.  The module imports `from datetime import datetime`, binding the
name `datetime` to the *class* `datetime.datetime`; `UTC` is an attribute of
the `datetime` *module* (since Python 3.11), not of the class, so evaluating
`datetime.UTC` raises `AttributeError`. -/
def datetime_now_utc : Except PyErr String := .error .attributeError

/-- The sink dispatch `log_click_event` (app.py lines 116-134).  `bq` is whether `bq_client` is
set (true exactly when `ENVIRONMENT == 'production'`, app.py line 76).  The
payload `rows_to_insert` is built *before* the `try` block, so an error
raised there propagates; only `bq_client.insert_rows_json` is inside
`try/except`, where any error is printed and swallowed. -/
def log_click_event (bq : Bool) (short_code user_agent ip_address : String) :
    Except PyErr Unit :=
  if !bq then .ok ()
  else
    match datetime_now_utc with
    | .error e => .error e
    | .ok _ => .ok ()

inductive RedirectOutcome where
  | notFound
  | moved (location : String)
  | crashed (e : PyErr)
deriving DecidableEq, Repr

/-- The handler `redirect_url` (app.py lines 177-194): look up the code (404 if absent),
increment the clicks counter and commit, then call `log_click_event`; an
exception escaping `log_click_event` aborts the handler (a 500, `crashed`)
*after* the increment was committed; otherwise issue the 302 redirect. -/
def redirect_url (bq : Bool) (short_code user_agent ip_address : String) (s : Store) :
    RedirectOutcome × Store :=
  match findByShortCode s short_code with
  | none => (.notFound, s)
  | some row =>
    let s2 := incrementFirst s short_code
    match log_click_event bq short_code user_agent ip_address with
    | .error e => (.crashed e, s2)
    | .ok _ => (.moved row.original_url, s2)

/-! ### `get_stats` (app.py lines 197-208) -/

/-- The stats response body: exactly the four fields of app.py lines 203-208. -/
structure StatsResp where
  short_code : String
  original_url : String
  clicks : Nat
  created_at : String
deriving DecidableEq, Repr

inductive StatsOutcome where
  | notFound
  | ok (resp : StatsResp)
deriving DecidableEq, Repr

def get_stats (s : Store) (short_code : String) : StatsOutcome :=
  match findByShortCode s short_code with
  | none => .notFound
  | some row => .ok ⟨row.short_code, row.original_url, row.clicks, isoformat row.created_at⟩

/-! ### Interleaving model of the clicks increment (claim C3)

`redirect_url` increments by loading the row (the `SELECT` issued by
`URL.query.filter_by(short_code=...).first()` reads `clicks` into the ORM
object) and later writing back `clicks + 1` (`url.clicks += 1;
db.session.commit()` issues `UPDATE ... SET clicks = <computed value>`).
Each concurrent request is a session with two steps: `read` (pc 0: copy the
shared counter into a register) and `write` (pc 1: store register + 1 back).
A schedule is the list of session indices in execution order. -/

structure Sess where
  pc : Nat
  reg : Nat
deriving DecidableEq, Repr

/-- One scheduler step: run the next step of session `i` (no-op if done). -/
def stepAt (st : Nat × (Nat → Sess)) (i : Nat) : Nat × (Nat → Sess) :=
  let sess := st.2 i
  if sess.pc == 0 then
    (st.1, fun j => if j == i then ⟨1, st.1⟩ else st.2 j)
  else if sess.pc == 1 then
    (sess.reg + 1, fun j => if j == i then ⟨2, sess.reg⟩ else st.2 j)
  else st

def runSched (sched : List Nat) (st : Nat × (Nat → Sess)) : Nat × (Nat → Sess) :=
  sched.foldl stepAt st

/-- All sessions at their initial pc. -/
def freshSessions : Nat → Sess := fun _ => ⟨0, 0⟩

/-- The schedule running sessions `0, ..., n-1` to completion one after the
other (no overlap). -/
def seqSched : Nat → List Nat
  | 0 => []
  | n + 1 => seqSched n ++ [n, n]

/-! ### Concrete instances used by witnesses and counterexamples -/

def d0 : PyDateTime := ⟨2026, 10, 12, 3, 4, 5⟩

/-- A store holding one mapping, as in the spec's round-trip scenario. -/
def exStore1 : Store := [⟨1, "https://example.com/page", "abc123", 0, d0⟩]

/-- Twelve candidate codes; the first eleven will be taken. -/
def exCodes : List String :=
  ["c00", "c01", "c02", "c03", "c04", "c05", "c06", "c07", "c08", "c09", "c10", "cFree"]

def exGen (i : Nat) : String := exCodes.getD i ("cFree")

/-- A store whose rows occupy the first eleven candidate codes. -/
def exStore11 : Store :=
  (List.range 11).map (fun i => ⟨i + 1, "https://x" ++ toString i ++ ".com", exCodes.getD i ("c00"), 0, d0⟩)

/-! ## Helper lemmas -/

theorem find?_append_of_none {α : Type} {p : α → Bool} {l1 : List α}
    (h : l1.find? p = none) (l2 : List α) : (l1 ++ l2).find? p = l2.find? p := by
  rw [List.find?_append, h, Option.none_or]

theorem genLoop_spec (gen : Nat → String) (taken : String → Bool) :
    ∀ (fuel i : Nat) (c : String) (n : Nat),
      (genLoop gen taken i fuel = some (c, n) ↔
        i ≤ n ∧ n < i + fuel ∧ c = gen n ∧ taken (gen n) = false ∧
          ∀ j, i ≤ j → j < n → taken (gen j) = true)
  | 0, i, c, n => by
    simp only [genLoop]
    constructor
    · intro h; cases h
    · rintro ⟨h1, h2, -⟩; omega
  | fuel + 1, i, c, n => by
    rw [genLoop]
    cases h : taken (gen i) with
    | true =>
      rw [if_pos rfl, genLoop_spec gen taken fuel (i + 1) c n]
      constructor
      · rintro ⟨h1, h2, h3, h4, h5⟩
        refine ⟨by omega, by omega, h3, h4, ?_⟩
        intro j hj1 hj2
        rcases Nat.eq_or_lt_of_le hj1 with rfl | hlt
        · exact h
        · exact h5 j hlt hj2
      · rintro ⟨h1, h2, h3, h4, h5⟩
        have hin : i ≠ n := by
          rintro rfl; rw [h4] at h; cases h
        exact ⟨by omega, by omega, h3, h4, fun j hj1 hj2 => h5 j (by omega) hj2⟩
    | false =>
      rw [if_neg (by simp [h])]
      simp only [Option.some.injEq, Prod.mk.injEq]
      constructor
      · rintro ⟨rfl, rfl⟩
        exact ⟨Nat.le_refl _, by omega, rfl, h, fun j hj1 hj2 => absurd hj1 (by omega)⟩
      · rintro ⟨h1, h2, h3, h4, h5⟩
        have hin : i = n := by
          by_contra hne
          have := h5 i (Nat.le_refl i) (by omega)
          rw [h] at this; cases this
        subst hin
        exact ⟨h3.symm, rfl⟩

theorem genLoop_const_true (gen : Nat → String) :
    ∀ (fuel i : Nat), genLoop gen (fun _ => true) i fuel = none
  | 0, _ => rfl
  | fuel + 1, i => by
    rw [genLoop, if_pos rfl]
    exact genLoop_const_true gen fuel (i + 1)

theorem genLoop_some_not_taken {gen : Nat → String} {taken : String → Bool} :
    ∀ {fuel i : Nat} {c : String} {n : Nat},
      genLoop gen taken i fuel = some (c, n) → taken c = false
  | 0, _, _, _, h => by cases h
  | fuel + 1, i, c, n, h => by
    rw [genLoop] at h
    cases ht : taken (gen i) with
    | true =>
      rw [if_pos (by rw [ht])] at h
      exact genLoop_some_not_taken h
    | false =>
      rw [if_neg (by rw [ht]; exact Bool.false_ne_true)] at h
      cases h
      exact ht

/-- Invariants extracted from a successful `shorten_url` call: the input
passed validation, and then either an existing mapping was reused (store
unchanged), or a fresh code that was free in the store was inserted as a new
final row. -/
theorem shorten_ok_inv {gen : Nat → String} {now : PyDateTime} {fuel : Nat}
    {s : Store} {u c : String} {s1 : Store} {ops : List StoreOp}
    (h : shorten_url gen now fuel s (some u) = ⟨.ok c, s1, ops⟩) :
    (u == "") = false ∧ is_valid_url u = true ∧
      ((∃ r, findByOriginalUrl s u = some r ∧ c = r.short_code ∧ s1 = s) ∨
        (findByOriginalUrl s u = none ∧ findByShortCode s c = none ∧
          s1 = s ++ [⟨nextId s, u, c, 0, now⟩])) := by
  simp only [shorten_url] at h
  by_cases h0 : (u == "") = true
  · rw [if_pos h0] at h; cases h
  · rw [if_neg h0] at h
    by_cases h1 : is_valid_url u = true
    · rw [if_neg (by rw [h1]; exact Bool.not_true ▸ Bool.false_ne_true)] at h
      refine ⟨Bool.eq_false_iff.mpr h0, h1, ?_⟩
      cases hf : findByOriginalUrl s u with
      | some r =>
        rw [hf] at h
        cases h
        exact Or.inl ⟨r, rfl, rfl, rfl⟩
      | none =>
        rw [hf] at h
        cases hg : genLoop gen (fun d => (findByShortCode s d).isSome) 0 fuel with
        | none => rw [hg] at h; cases h
        | some cn =>
          obtain ⟨c0, n⟩ := cn
          rw [hg] at h
          have hfree : (findByShortCode s c0).isSome = false := genLoop_some_not_taken hg
          have hnone : findByShortCode s c0 = none := by
            cases hsc : findByShortCode s c0 with
            | none => rfl
            | some r2 => rw [hsc] at hfree; cases hfree
          cases h
          exact Or.inr ⟨rfl, hnone, rfl⟩
    · rw [if_pos (by simp [Bool.eq_false_iff.mpr h1])] at h; cases h

/-- A `shorten_url` call that finds an existing mapping returns its code and
touches nothing. -/
theorem shorten_dedup {gen : Nat → String} {now : PyDateTime} {fuel : Nat}
    {s : Store} {u : String} {r : URLRow}
    (hne : (u == "") = false) (hv : is_valid_url u = true)
    (hf : findByOriginalUrl s u = some r) :
    shorten_url gen now fuel s (some u) = ⟨.ok r.short_code, s, [.queryByUrl u]⟩ := by
  simp only [shorten_url]
  rw [if_neg (by rw [hne]; exact Bool.false_ne_true), if_neg (by rw [hv]; exact Bool.not_true ▸ Bool.false_ne_true), hf]

theorem findByShortCode_incrementFirst :
    ∀ {s : Store} {c : String} {r : URLRow}, findByShortCode s c = some r →
      findByShortCode (incrementFirst s c) c = some { r with clicks := r.clicks + 1 }
  | [], c, r, h => by cases h
  | a :: s, c, r, h => by
    unfold findByShortCode at h ⊢
    cases ha : a.short_code == c with
    | true =>
      simp only [List.find?, ha] at h
      cases h
      simp [incrementFirst, ha, List.find?]
    | false =>
      simp only [List.find?, ha] at h
      simp only [incrementFirst, ha, Bool.false_eq_true, if_false, List.find?]
      exact findByShortCode_incrementFirst h

theorem incrementFirst_append_single {s : Store} {c : String}
    (h : findByShortCode s c = none) (r : URLRow) (hr : r.short_code = c) :
    incrementFirst (s ++ [r]) c = s ++ [{ r with clicks := r.clicks + 1 }] := by
  induction s with
  | nil =>
    simp [incrementFirst, hr]
  | cons a s ih =>
    unfold findByShortCode at h
    have ha : (a.short_code == c) = false := by
      cases ha : a.short_code == c with
      | true => simp only [List.find?, ha] at h; cases h
      | false => rfl
    simp only [List.find?, ha] at h
    rw [List.cons_append]
    simp only [incrementFirst, ha, Bool.false_eq_true, if_false]
    rw [ih h, List.cons_append]

theorem findByShortCode_append_single {s : Store} {c : String}
    (h : findByShortCode s c = none) (r : URLRow) (hr : r.short_code = c) :
    findByShortCode (s ++ [r]) c = some r := by
  unfold findByShortCode at h ⊢
  rw [find?_append_of_none h]
  simp [List.find?, hr]

/-- One successful development-mode redirect on a store whose only row for `c`
is a final row `r`: it yields a 302 to `r.original_url` and bumps that row. -/
theorem redirect_dev_step {s : Store} {c : String}
    (h : findByShortCode s c = none) (r : URLRow) (hr : r.short_code = c)
    (ua ip : String) :
    redirect_url false c ua ip (s ++ [r]) =
      (.moved r.original_url, s ++ [{ r with clicks := r.clicks + 1 }]) := by
  unfold redirect_url
  rw [findByShortCode_append_single h r hr, incrementFirst_append_single h r hr]
  rfl

theorem isDigit_digitChar (n : Nat) : (digitChar n).isDigit = true := by
  unfold digitChar
  have h10 : n % 10 < 10 := Nat.mod_lt _ (by norm_num)
  generalize hr : n % 10 = r at h10
  interval_cases r <;> rfl

theorem isIso8601_isoformat (d : PyDateTime) : isIso8601 (isoformat d) = true := by
  simp only [isIso8601, isoformat, pad4Chars, pad2Chars, List.cons_append, List.nil_append]
  simp [isDigit_digitChar]

theorem stepAt_read {st : Nat × (Nat → Sess)} {i : Nat} (h : (st.2 i).pc = 0) :
    stepAt st i = (st.1, fun j => if j == i then ⟨1, st.1⟩ else st.2 j) := by
  simp [stepAt, h]

theorem stepAt_write {st : Nat × (Nat → Sess)} {i : Nat} (h : (st.2 i).pc = 1) :
    stepAt st i = ((st.2 i).reg + 1, fun j => if j == i then ⟨2, (st.2 i).reg⟩ else st.2 j) := by
  simp [stepAt, h]

/-- Running the sequential schedule from a fresh state: each session reads the
counter it sees and writes it back plus one, so `n` sequential sessions add
exactly `n`. -/
theorem runSched_seq (c0 : Nat) :
    ∀ n : Nat, runSched (seqSched n) (c0, freshSessions) =
      (c0 + n, fun j => if j < n then ⟨2, c0 + j⟩ else ⟨0, 0⟩) := by
  intro n
  induction n with
  | zero =>
    refine Prod.ext rfl ?_
    funext j
    simp [runSched, seqSched, freshSessions]
  | succ n ih =>
    have hrun : runSched (seqSched (n + 1)) (c0, freshSessions) =
        runSched [n, n] (runSched (seqSched n) (c0, freshSessions)) := by
      show runSched (seqSched n ++ [n, n]) _ = _
      unfold runSched
      rw [List.foldl_append]
    rw [hrun, ih]
    have hlt : ¬n < n := Nat.lt_irrefl n
    have hsucc : n < n + 1 := Nat.lt_succ_self n
    refine Prod.ext ?_ ?_
    · show (stepAt (stepAt (c0 + n, fun j => if j < n then ⟨2, c0 + j⟩ else ⟨0, 0⟩) n) n).1 =
        c0 + (n + 1)
      simp [stepAt, hlt]
      omega
    · funext j
      show (stepAt (stepAt (c0 + n, fun j => if j < n then ⟨2, c0 + j⟩ else ⟨0, 0⟩) n) n).2 j =
        if j < n + 1 then ⟨2, c0 + j⟩ else ⟨0, 0⟩
      by_cases hjn : j = n
      · subst hjn
        simp [stepAt, hlt, hsucc]
      · by_cases hjl : j < n
        · have h1 : j < n + 1 := by omega
          simp [stepAt, hlt, hjn, hjl, h1]
        · have h1 : ¬j < n + 1 := by omega
          simp [stepAt, hlt, hjn, hjl, h1]

/-! ## Claims -/

/-- Claim C1 (code bug in the source): the spec requires that any error in the
click-event sink dispatch, including one raised while building the event
payload, is logged and swallowed so that `resolve` still redirects.  In the
code the payload construction sits *before* the `try` block, and in production
it always raises (`datetime.now(datetime.UTC)` is an `AttributeError` under
`from datetime import datetime`), so a production redirect of a stored code
crashes instead of returning the 302 — though the click was already counted. -/
theorem c1_sink_crash_breaks_redirect :
    redirect_url true ("abc123") ("Mozilla/5.0") ("203.0.113.7") exStore1 =
      (.crashed .attributeError, [⟨1, "https://example.com/page", "abc123", 1, d0⟩]) := by
  decide

/-- Claim C2, counterexample: with the first eleven generated candidates all
taken, the candidate loop of `shorten_url` simply keeps retrying past any
ten-retry budget and succeeds on the twelfth candidate; no
`CodeSpaceExhaustedError` exists in the program. -/
theorem c2_counterexample :
    ((List.range 11).all (fun i => (findByShortCode exStore11 (exGen i)).isSome)) = true ∧
    genLoop exGen (fun d => (findByShortCode exStore11 d).isSome) 0 20 = some ("cFree", 11) ∧
    (shorten_url exGen d0 20 exStore11 (some ("https://fresh.example.com"))).outcome =
      ShortenOutcome.ok ("cFree") := by
  decide

/-- Claim C2 (amended): the candidate-generation loop of `shorten_url` is
unbounded — it never fails with a retry-budget error; within any fuel bound it
returns precisely the first generated candidate that is not taken, after
exactly as many retries as there are taken candidates before it, and if every
candidate is taken it never terminates (no fuel suffices). -/
theorem c2_amended_loop_unbounded (gen : Nat → String) (taken : String → Bool)
    (i fuel : Nat) (c : String) (n : Nat) :
    (genLoop gen taken i fuel = some (c, n) ↔
      i ≤ n ∧ n < i + fuel ∧ c = gen n ∧ taken (gen n) = false ∧
        ∀ j, i ≤ j → j < n → taken (gen j) = true) ∧
    genLoop gen (fun _ => true) i fuel = none :=
  ⟨genLoop_spec gen taken fuel i c n, genLoop_const_true gen fuel i⟩

/-- Claim C3, counterexample: the increment in `redirect_url` is a
load-mutate-store (the row's `clicks` is read by the lookup, and
`url.clicks += 1; commit()` writes back the value computed from that read),
so two concurrent resolves of the same code can interleave read-read-write-
write and leave the counter at 1 instead of 2: a lost update. -/
theorem c3_counterexample :
    ((runSched [0, 1, 0, 1] (0, freshSessions)).2 0).pc = 2 ∧
    ((runSched [0, 1, 0, 1] (0, freshSessions)).2 1).pc = 2 ∧
    ¬(runSched [0, 1, 0, 1] (0, freshSessions)).1 = 0 + 2 := by
  decide

/-- Claim C3 (amended): under the load-mutate-store increment of
`redirect_url`, `n` *sequential* resolves increment the counter by exactly
`n`, but the fully overlapped two-session interleaving (both reads before
both writes) completes both sessions yet increments the counter by only 1. -/
theorem c3_amended_lost_update (n c0 : Nat) :
    (runSched (seqSched n) (c0, freshSessions)).1 = c0 + n ∧
    ((runSched [0, 1, 0, 1] (0, freshSessions)).2 0).pc = 2 ∧
    ((runSched [0, 1, 0, 1] (0, freshSessions)).2 1).pc = 2 ∧
    (runSched [0, 1, 0, 1] (0, freshSessions)).1 = 1 :=
  ⟨by rw [runSched_seq], by decide, by decide, by decide⟩

/-- Claim C7: invalid inputs — a missing URL, the empty string, a non-URL
string, a non-http(s) scheme — are rejected by `shorten_url` with the
400-class `InvalidUrlError` responses, with the store unchanged and an empty
store-operation trace: validation happens before any store access and no row
is inserted. -/
theorem c7_invalid_inputs_rejected (gen : Nat → String) (now : PyDateTime)
    (fuel : Nat) (s : Store) :
    shorten_url gen now fuel s (some ("")) = ⟨.badRequest .required, s, []⟩ ∧
    shorten_url gen now fuel s (some ("not a url")) = ⟨.badRequest .invalidFormat, s, []⟩ ∧
    shorten_url gen now fuel s (some ("ftp://example.com")) = ⟨.badRequest .invalidFormat, s, []⟩ ∧
    shorten_url gen now fuel s none = ⟨.badRequest .required, s, []⟩ :=
  ⟨rfl, rfl, rfl, rfl⟩

/-- Claim C8: resolving a short code that is not in the store yields the 404
`notFound` outcome and returns the store unchanged: no row is created and no
counter is incremented. -/
theorem c8_not_found (bq : Bool) (code ua ip : String) (s : Store)
    (h : findByShortCode s code = none) :
    redirect_url bq code ua ip s = (.notFound, s) := by
  unfold redirect_url
  rw [h]

/-- Witness for C8 at a concrete store and unknown code. -/
theorem c8_witness :
    findByShortCode exStore1 ("zzzzzz") = none ∧
    redirect_url false ("zzzzzz") ("UA") ("198.51.100.1") exStore1 = (.notFound, exStore1) :=
  ⟨by decide, c8_not_found false ("zzzzzz") ("UA") ("198.51.100.1") exStore1 (by decide)⟩

/-- Claim C10: in `redirect_url` the clicks increment is committed before the
click-event sink dispatch, so when the sink dispatch raises (as it always
does in production), the mapping's counter is nonetheless left incremented by
one even though no redirect response is produced. -/
theorem c10_increment_before_sink (code ua ip : String) (s : Store) (r : URLRow)
    (h : findByShortCode s code = some r) :
    redirect_url true code ua ip s = (.crashed .attributeError, incrementFirst s code) ∧
    clicksOf (incrementFirst s code) code = some (r.clicks + 1) := by
  constructor
  · unfold redirect_url
    rw [h]
    rfl
  · unfold clicksOf
    rw [findByShortCode_incrementFirst h]
    rfl

theorem findByOriginalUrl_some_mem {s : Store} {u : String} {r : URLRow}
    (h : findByOriginalUrl s u = some r) : r ∈ s ∧ r.original_url = u := by
  unfold findByOriginalUrl at h
  refine ⟨List.mem_of_find?_eq_some h, ?_⟩
  have := List.find?_some h
  simpa using this

theorem findByShortCode_some_mem {s : Store} {c : String} {r : URLRow}
    (h : findByShortCode s c = some r) : r ∈ s ∧ r.short_code = c := by
  unfold findByShortCode at h
  refine ⟨List.mem_of_find?_eq_some h, ?_⟩
  have := List.find?_some h
  simpa using this

theorem findByShortCode_ne_none_of_mem {s : Store} {r : URLRow} (hmem : r ∈ s) :
    findByShortCode s r.short_code ≠ none := by
  unfold findByShortCode
  intro hn
  have := List.find?_eq_none.mp hn r hmem
  simp at this

/-- With unique codes in the store, looking up a member row's code finds that
very row. -/
theorem findByShortCode_of_mem_nodup {s : Store} {r : URLRow} (hnd : codesNodup s)
    (hmem : r ∈ s) : findByShortCode s r.short_code = some r := by
  cases hsc : findByShortCode s r.short_code with
  | none => exact absurd hsc (findByShortCode_ne_none_of_mem hmem)
  | some r2 =>
    obtain ⟨hmem2, hcode⟩ := findByShortCode_some_mem hsc
    rw [List.inj_on_of_nodup_map hnd hmem2 hmem hcode]

/-- Claim C4: for a valid URL, a second `shorten_url` call returns the same
short code as the first, performs only the dedup lookup (no insert, no code
generation), leaves the store unchanged, and exactly one row for that URL
exists afterwards; the dedup match is exact string equality. -/
theorem c4_idempotent_shorten (gen gen2 : Nat → String) (now now2 : PyDateTime)
    (fuel fuel2 : Nat) (s : Store) (u c : String) (s1 : Store) (ops : List StoreOp)
    (hcount : countUrl s u ≤ 1)
    (h : shorten_url gen now fuel s (some u) = ⟨.ok c, s1, ops⟩) :
    shorten_url gen2 now2 fuel2 s1 (some u) = ⟨.ok c, s1, [.queryByUrl u]⟩ ∧
    countUrl s1 u = 1 := by
  obtain ⟨hne, hv, hcase⟩ := shorten_ok_inv h
  rcases hcase with ⟨r, hf, rfl, rfl⟩ | ⟨hf, hfc, rfl⟩
  · refine ⟨shorten_dedup hne hv hf, ?_⟩
    have h1 : 0 < countUrl s1 u := by
      unfold countUrl
      rw [List.countP_pos_iff]
      obtain ⟨hmem, hru⟩ := findByOriginalUrl_some_mem hf
      exact ⟨r, hmem, by simp [hru]⟩
    omega
  · have hz : countUrl s u = 0 := by
      unfold countUrl
      rw [List.countP_eq_zero]
      unfold findByOriginalUrl at hf
      exact List.find?_eq_none.mp hf
    have hf2 : findByOriginalUrl (s ++ [(⟨nextId s, u, c, 0, now⟩ : URLRow)]) u =
        some ⟨nextId s, u, c, 0, now⟩ := by
      unfold findByOriginalUrl at hf ⊢
      rw [find?_append_of_none hf]
      simp [List.find?]
    refine ⟨shorten_dedup hne hv hf2, ?_⟩
    unfold countUrl at hz ⊢
    rw [List.countP_append, hz]
    simp

/-- Witness for C4 at a concrete first call inserting a fresh row. -/
theorem c4_witness :
    countUrl [] ("https://a.com") ≤ 1 ∧
    shorten_url exGen d0 5 [] (some ("https://a.com")) =
      ⟨.ok ("c00"), [⟨1, "https://a.com", "c00", 0, d0⟩],
        [.queryByUrl ("https://a.com"), .queryByCode ("c00"),
          .insertRow ⟨1, "https://a.com", "c00", 0, d0⟩]⟩ ∧
    (shorten_url exGen d0 5 [⟨1, "https://a.com", "c00", 0, d0⟩] (some ("https://a.com")) =
        ⟨.ok ("c00"), [⟨1, "https://a.com", "c00", 0, d0⟩], [.queryByUrl ("https://a.com")]⟩ ∧
      countUrl [⟨1, "https://a.com", "c00", 0, d0⟩] ("https://a.com") = 1) :=
  ⟨by decide, by decide,
    c4_idempotent_shorten exGen exGen d0 d0 5 5 [] ("https://a.com") ("c00")
      [⟨1, "https://a.com", "c00", 0, d0⟩]
      [.queryByUrl ("https://a.com"), .queryByCode ("c00"),
        .insertRow ⟨1, "https://a.com", "c00", 0, d0⟩]
      (by decide) (by decide)⟩

/-- Claim C5: round-trip — if `shorten_url` returns code `c` for URL `u`,
then resolving `c` (in development mode, where the sink is a no-op) issues a
302 redirect to exactly `u`, unchanged. -/
theorem c5_round_trip (gen : Nat → String) (now : PyDateTime) (fuel : Nat)
    (s : Store) (u c ua ip : String) (s1 : Store) (ops : List StoreOp)
    (hnd : codesNodup s)
    (h : shorten_url gen now fuel s (some u) = ⟨.ok c, s1, ops⟩) :
    (redirect_url false c ua ip s1).1 = .moved u := by
  obtain ⟨hne, hv, hcase⟩ := shorten_ok_inv h
  rcases hcase with ⟨r, hf, rfl, rfl⟩ | ⟨hf, hfc, rfl⟩
  · obtain ⟨hmem, hru⟩ := findByOriginalUrl_some_mem hf
    have hsc := findByShortCode_of_mem_nodup hnd hmem
    unfold redirect_url
    rw [hsc]
    show RedirectOutcome.moved r.original_url = RedirectOutcome.moved u
    rw [hru]
  · rw [redirect_dev_step hfc ⟨nextId s, u, c, 0, now⟩ rfl ua ip]

/-- Witness for C5 at a concrete store, exercising the dedup path. -/
theorem c5_witness :
    codesNodup exStore1 ∧
    shorten_url exGen d0 5 exStore1 (some ("https://example.com/page")) =
      ⟨.ok ("abc123"), exStore1, [.queryByUrl ("https://example.com/page")]⟩ ∧
    (redirect_url false ("abc123") ("UA") ("198.51.100.1") exStore1).1 =
      .moved ("https://example.com/page") :=
  ⟨by decide, by decide,
    c5_round_trip exGen d0 5 exStore1 ("https://example.com/page") ("abc123") ("UA")
      ("198.51.100.1") exStore1 [.queryByUrl ("https://example.com/page")]
      (by decide) (by decide)⟩

/-- Claim C9: after shortening a fresh URL to code `c` and resolving `c`
three times successfully, `get_stats` reports exactly
`{short_code := c, original_url := u, clicks := 3, created_at}` with
`created_at` in ISO-8601 form; stats on an unknown code is a 404. -/
theorem c9_stats_scenario (gen : Nat → String) (now : PyDateTime) (fuel : Nat)
    (s : Store) (u c ua ip : String) (s1 : Store) (ops : List StoreOp)
    (h0 : findByOriginalUrl s u = none)
    (h : shorten_url gen now fuel s (some u) = ⟨.ok c, s1, ops⟩) :
    ((redirect_url false c ua ip s1).1 = .moved u ∧
      (redirect_url false c ua ip ((redirect_url false c ua ip s1).2)).1 = .moved u ∧
      (redirect_url false c ua ip
        ((redirect_url false c ua ip ((redirect_url false c ua ip s1).2)).2)).1 = .moved u ∧
      get_stats ((redirect_url false c ua ip
        ((redirect_url false c ua ip ((redirect_url false c ua ip s1).2)).2)).2) c =
          .ok ⟨c, u, 3, isoformat now⟩) ∧
    isIso8601 (isoformat now) = true ∧
    (∀ code2 s0, findByShortCode s0 code2 = none → get_stats s0 code2 = .notFound) := by
  obtain ⟨hne, hv, hcase⟩ := shorten_ok_inv h
  rcases hcase with ⟨r, hf, rfl, rfl⟩ | ⟨hf, hfc, rfl⟩
  · rw [h0] at hf
    cases hf
  · refine ⟨?_, isIso8601_isoformat now, ?_⟩
    · rw [redirect_dev_step hfc ⟨nextId s, u, c, 0, now⟩ rfl ua ip]
      rw [redirect_dev_step hfc ({ (⟨nextId s, u, c, 0, now⟩ : URLRow) with
        clicks := (⟨nextId s, u, c, 0, now⟩ : URLRow).clicks + 1 }) rfl ua ip]
      rw [redirect_dev_step hfc _ rfl ua ip]
      refine ⟨rfl, rfl, rfl, ?_⟩
      unfold get_stats
      rw [findByShortCode_append_single hfc _ rfl]
    · intro code2 s0 hn
      unfold get_stats
      rw [hn]

/-- Witness for C9 at a concrete fresh URL and three concrete resolves. -/
theorem c9_witness :
    findByOriginalUrl [] ("https://a.com") = none ∧
    shorten_url exGen d0 5 [] (some ("https://a.com")) =
      ⟨.ok ("c00"), [⟨1, "https://a.com", "c00", 0, d0⟩],
        [.queryByUrl ("https://a.com"), .queryByCode ("c00"),
          .insertRow ⟨1, "https://a.com", "c00", 0, d0⟩]⟩ ∧
    (((redirect_url false ("c00") ("UA") ("ip1") [⟨1, "https://a.com", "c00", 0, d0⟩]).1 =
        .moved ("https://a.com") ∧
      (redirect_url false ("c00") ("UA") ("ip1")
        ((redirect_url false ("c00") ("UA") ("ip1")
          [⟨1, "https://a.com", "c00", 0, d0⟩]).2)).1 = .moved ("https://a.com") ∧
      (redirect_url false ("c00") ("UA") ("ip1")
        ((redirect_url false ("c00") ("UA") ("ip1")
          ((redirect_url false ("c00") ("UA") ("ip1")
            [⟨1, "https://a.com", "c00", 0, d0⟩]).2)).2)).1 = .moved ("https://a.com") ∧
      get_stats ((redirect_url false ("c00") ("UA") ("ip1")
        ((redirect_url false ("c00") ("UA") ("ip1")
          ((redirect_url false ("c00") ("UA") ("ip1")
            [⟨1, "https://a.com", "c00", 0, d0⟩]).2)).2)).2) ("c00") =
          .ok ⟨"c00", "https://a.com", 3, isoformat d0⟩) ∧
      isIso8601 (isoformat d0) = true ∧
      (∀ code2 s0, findByShortCode s0 code2 = none → get_stats s0 code2 = .notFound)) :=
  ⟨by decide, by decide,
    c9_stats_scenario exGen d0 5 [] ("https://a.com") ("c00") ("UA") ("ip1")
      [⟨1, "https://a.com", "c00", 0, d0⟩]
      [.queryByUrl ("https://a.com"), .queryByCode ("c00"),
        .insertRow ⟨1, "https://a.com", "c00", 0, d0⟩]
      (by decide) (by decide)⟩

/-- Witness for C10 at a concrete store and stored code. -/
theorem c10_witness :
    findByShortCode exStore1 ("abc123") = some ⟨1, "https://example.com/page", "abc123", 0, d0⟩ ∧
    (redirect_url true ("abc123") ("UA") ("198.51.100.1") exStore1 =
        (.crashed .attributeError, incrementFirst exStore1 ("abc123")) ∧
      clicksOf (incrementFirst exStore1 ("abc123")) ("abc123") = some (0 + 1)) :=
  ⟨by decide,
    c10_increment_before_sink ("abc123") ("UA") ("198.51.100.1") exStore1
      ⟨1, "https://example.com/page", "abc123", 0, d0⟩ (by decide)⟩

/-! ## URL-shape equivalence lemmas (claim C6) -/

theorem bor_cases {a b : Bool} (h : (a || b) = true) : a = true ∨ b = true := by
  cases a
  · exact Or.inr (by simpa using h)
  · exact Or.inl rfl

theorem band_parts {a b : Bool} (h : (a && b) = true) : a = true ∧ b = true := by
  cases a
  · cases h
  · exact ⟨rfl, by simpa using h⟩

theorem afterSlashes_some {l r : List Char} (h : afterSlashes l = some r) :
    l = '/' :: '/' :: r := by
  rw [afterSlashes.eq_def] at h
  split at h
  · cases h; rfl
  · cases h

theorem stripSchemeChars_some {cs rest : List Char}
    (h : stripSchemeChars cs = some rest) :
    ∃ sch, SchemeOkChars sch = true ∧ cs = sch ++ ':' :: '/' :: '/' :: rest := by
  rw [stripSchemeChars.eq_def] at h
  split at h
  case h_2 => cases h
  case h_1 a b c d rest0 =>
    split at h
    case isFalse => cases h
    case isTrue hh =>
      obtain ⟨ha, hb, hc, hd⟩ : a.toLower = 'h' ∧ b.toLower = 't' ∧ c.toLower = 't' ∧
          d.toLower = 'p' := by
        simpa [Bool.and_eq_true, beq_iff_eq, and_assoc] using hh
      split at h
      case h_1 => cases h
      case h_2 x rest2 =>
        split at h
        case isTrue hx =>
          have hx2 : x = ':' := by simpa using hx
          subst hx2
          have h2 := afterSlashes_some h
          subst h2
          refine ⟨[a, b, c, d], ?_, rfl⟩
          simp [SchemeOkChars, ha, hb, hc, hd]
        case isFalse hx =>
          split at h
          case isFalse => cases h
          case isTrue hs =>
            have hs2 : x.toLower = 's' := by simpa using hs
            split at h
            case h_1 => cases h
            case h_2 y rest3 =>
              split at h
              case isFalse => cases h
              case isTrue hy =>
                have hy2 : y = ':' := by simpa using hy
                subst hy2
                have h2 := afterSlashes_some h
                subst h2
                refine ⟨[a, b, c, d, x], ?_, rfl⟩
                simp [SchemeOkChars, ha, hb, hc, hd, hs2]

theorem stripSchemeChars_of_scheme {sch : List Char} (h : SchemeOkChars sch = true)
    (R : List Char) : stripSchemeChars (sch ++ ':' :: '/' :: '/' :: R) = some R := by
  rw [SchemeOkChars] at h
  rcases bor_cases h with h4 | h5
  · have hm : sch.map Char.toLower = ['h', 't', 't', 'p'] := by simpa using h4
    obtain ⟨a, b, c, d, rfl, ha, hb, hc, hd⟩ : ∃ a b c d, sch = [a, b, c, d] ∧
        a.toLower = 'h' ∧ b.toLower = 't' ∧ c.toLower = 't' ∧ d.toLower = 'p' := by
      cases sch with
      | nil => simp at hm
      | cons a s1 =>
        cases s1 with
        | nil => simp at hm
        | cons b s2 =>
          cases s2 with
          | nil => simp at hm
          | cons c s3 =>
            cases s3 with
            | nil => simp at hm
            | cons d s4 =>
              cases s4 with
              | nil =>
                simp only [List.map_cons, List.map_nil, List.cons.injEq, and_true] at hm
                exact ⟨a, b, c, d, rfl, hm.1, hm.2.1, hm.2.2.1, hm.2.2.2⟩
              | cons e s5 => simp at hm
    simp [stripSchemeChars, ha, hb, hc, hd, afterSlashes]
  · have hm : sch.map Char.toLower = ['h', 't', 't', 'p', 's'] := by simpa using h5
    obtain ⟨a, b, c, d, e, rfl, ha, hb, hc, hd, he⟩ : ∃ a b c d e, sch = [a, b, c, d, e] ∧
        a.toLower = 'h' ∧ b.toLower = 't' ∧ c.toLower = 't' ∧ d.toLower = 'p' ∧
        e.toLower = 's' := by
      cases sch with
      | nil => simp at hm
      | cons a s1 =>
        cases s1 with
        | nil => simp at hm
        | cons b s2 =>
          cases s2 with
          | nil => simp at hm
          | cons c s3 =>
            cases s3 with
            | nil => simp at hm
            | cons d s4 =>
              cases s4 with
              | nil => simp at hm
              | cons e s5 =>
                cases s5 with
                | nil =>
                  simp only [List.map_cons, List.map_nil, List.cons.injEq, and_true] at hm
                  exact ⟨a, b, c, d, e, rfl, hm.1, hm.2.1, hm.2.2.1, hm.2.2.2.1, hm.2.2.2.2⟩
                | cons f s6 => simp at hm
    have hne : (e == ':') = false := by
      rw [beq_eq_false_iff_ne]
      intro h2
      subst h2
      simp at he
    simp [stripSchemeChars, ha, hb, hc, hd, he, hne, afterSlashes]

theorem takeWhile_append_eq {α : Type} {p : α → Bool} :
    ∀ {l1 l2 : List α}, l1.all p = true → (∀ c, l2.head? = some c → p c = false) →
      (l1 ++ l2).takeWhile p = l1 ∧ (l1 ++ l2).dropWhile p = l2
  | [], l2, _, h2 => by
    cases l2 with
    | nil => exact ⟨rfl, rfl⟩
    | cons c l2t =>
      rw [List.nil_append]
      constructor
      · rw [List.takeWhile_cons, h2 c rfl]
        rfl
      · rw [List.dropWhile_cons, h2 c rfl]
        rfl
  | a :: l1, l2, h1, h2 => by
    rw [List.all_cons, Bool.and_eq_true] at h1
    have ih := takeWhile_append_eq h1.2 h2
    rw [List.cons_append]
    constructor
    · rw [List.takeWhile_cons, h1.1]
      rw [ih.1]
      rfl
    · rw [List.dropWhile_cons, h1.1]
      exact ih.2

theorem dropWhile_append_all {α : Type} {p : α → Bool} :
    ∀ {l1 l2 : List α}, l1.all p = true → (l1 ++ l2).dropWhile p = l2.dropWhile p
  | [], _, _ => rfl
  | a :: l1, l2, h => by
    rw [List.all_cons, Bool.and_eq_true] at h
    rw [List.cons_append, List.dropWhile_cons, h.1]
    exact dropWhile_append_all h.2

theorem dropWhile_head_neg {α : Type} {p : α → Bool} {l : List α}
    (h : ∀ c, l.head? = some c → p c = false) : l.dropWhile p = l := by
  cases l with
  | nil => rfl
  | cons a lt =>
    rw [List.dropWhile_cons, h a rfl]
    rfl

theorem all_takeWhile_self {p : Char → Bool} (l : List Char) :
    (l.takeWhile p).all p = true :=
  List.all_eq_true.mpr fun _ hx => List.mem_takeWhile_imp hx

theorem TailOkChars_colon (l : List Char) : TailOkChars (':' :: l) = false := by
  simp [TailOkChars]

theorem TailOkChars_getLast_not_nl {t : List Char} (h : TailOkChars t = true) :
    (t.getLast? == some '\n') = false := by
  rw [TailOkChars] at h
  rcases bor_cases h with h12 | h3
  · rcases bor_cases h12 with h1 | h2
    · have : t = [] := by simpa using h1
      subst this
      rfl
    · have : t = ['/'] := by simpa using h2
      subst this
      rfl
  · obtain ⟨h12, hall⟩ := band_parts h3
    obtain ⟨-, hne⟩ := band_parts h12
    cases t with
    | nil => simp at hne
    | cons a tt =>
      simp only [List.tail_cons] at hne hall
      cases hx : tt.getLast? with
      | none =>
        have : tt = [] := by simpa using hx
        subst this
        simp at hne
      | some x =>
        have hmem : x ∈ tt := List.mem_of_getLast?_eq_some hx
        have hsp := List.all_eq_true.mp hall x hmem
        have hxn : x ≠ '\n' := by
          intro he
          subst he
          simp [isPySpace] at hsp
        have hcons : (a :: tt).getLast? = some x := by
          cases tt with
          | nil => cases hx
          | cons b tt2 => rw [List.getLast?_cons_cons]; exact hx
        rw [hcons]
        simp [hxn]

theorem tailOk_comp {tl nl : List Char} (htl : TailOkChars tl = true)
    (hnl : NlOkChars nl = true) : tailOk (tl ++ nl) = true := by
  rw [NlOkChars] at hnl
  rcases bor_cases hnl with h | h
  · have : nl = [] := by simpa using h
    subst this
    rw [List.append_nil, tailOk, TailOkChars_getLast_not_nl htl]
    simpa using htl
  · have : nl = ['\n'] := by simpa using h
    subst this
    rw [tailOk]
    have h1 : (tl ++ ['\n']).getLast? = some '\n' := by simp
    rw [h1]
    simpa [List.dropLast_concat] using htl

theorem tailOk_colon (l : List Char) : tailOk (':' :: l) = false := by
  rw [tailOk]
  cases hc : ((':' :: l).getLast? == some '\n') with
  | false =>
    simpa using TailOkChars_colon l
  | true =>
    have hg : (':' :: l).getLast? = some '\n' := by simpa using hc
    cases l with
    | nil => simp at hg
    | cons b lt =>
      have : (':' :: b :: lt).dropLast = ':' :: (b :: lt).dropLast := rfl
      simpa [this] using TailOkChars_colon (b :: lt).dropLast

theorem tailOk_decomp {t : List Char} (h : tailOk t = true) :
    ∃ tl nl, t = tl ++ nl ∧ TailOkChars tl = true ∧ NlOkChars nl = true := by
  rw [tailOk] at h
  cases hc : (t.getLast? == some '\n') with
  | false =>
    rw [hc] at h
    refine ⟨t, [], by simp, by simpa using h, rfl⟩
  | true =>
    rw [hc] at h
    have hn : t.getLast? = some '\n' := by simpa using hc
    have hne : t ≠ [] := by
      intro he
      subst he
      simp at hn
    refine ⟨t.dropLast, ['\n'], ?_, by simpa using h, rfl⟩
    have hg : t.getLast hne = '\n' := by
      have := List.getLast?_eq_getLast t hne
      rw [hn] at this
      exact (Option.some.inj this).symm
    rw [← hg]
    exact (List.dropLast_append_getLast hne).symm

theorem PortOkChars_cases {p : List Char} (h : PortOkChars p = true) :
    p = [] ∨ ∃ ds, p = ':' :: ds ∧ ds ≠ [] ∧ ds.all Char.isDigit = true := by
  rw [PortOkChars] at h
  rcases bor_cases h with h1 | h2
  · exact Or.inl (by simpa using h1)
  · obtain ⟨h12, hall⟩ := band_parts h2
    obtain ⟨hh, hne⟩ := band_parts h12
    cases p with
    | nil => simp at hh
    | cons c pt =>
      have : c = ':' := by simpa using hh
      subst this
      simp only [List.tail_cons] at hne hall
      exact Or.inr ⟨pt, rfl, by simpa using hne, hall⟩

theorem tailNl_head_cases {tl nl : List Char} (htl : TailOkChars tl = true)
    (hnl : NlOkChars nl = true) :
    ∀ {c}, (tl ++ nl).head? = some c → c = '/' ∨ c = '?' ∨ c = '\n' := by
  intro c hc
  cases tl with
  | nil =>
    rw [NlOkChars] at hnl
    rcases bor_cases hnl with h | h
    · have : nl = [] := by simpa using h
      subst this
      cases hc
    · have : nl = ['\n'] := by simpa using h
      subst this
      have : '\n' = c := by simpa using hc
      exact Or.inr (Or.inr this.symm)
  | cons a tlt =>
    have hac : a = c := by simpa using hc
    subst hac
    rw [TailOkChars] at htl
    rcases bor_cases htl with h12 | h3
    · rcases bor_cases h12 with h1 | h2
      · simp at h1
      · have h2b : a = '/' ∧ tlt = [] := by simpa using h2
        exact Or.inl h2b.1
    · obtain ⟨h12b, -⟩ := band_parts h3
      obtain ⟨hh, -⟩ := band_parts h12b
      rcases bor_cases hh with h | h
      · exact Or.inl (by simpa using h)
      · exact Or.inr (Or.inl (by simpa using h))

theorem portTailNl_head_not_host {port tl nl : List Char}
    (hport : PortOkChars port = true) (htl : TailOkChars tl = true)
    (hnl : NlOkChars nl = true) :
    ∀ c, (port ++ (tl ++ nl)).head? = some c → isHostChar c = false := by
  intro c hc
  rcases PortOkChars_cases hport with rfl | ⟨ds, rfl, -, -⟩
  · rw [List.nil_append] at hc
    rcases tailNl_head_cases htl hnl hc with rfl | rfl | rfl <;> rfl
  · rw [List.cons_append] at hc
    have h2 : (':' : Char) = c := by simpa using hc
    rw [← h2]
    rfl

theorem portTailNl_head_not_digit {tl nl : List Char} (htl : TailOkChars tl = true)
    (hnl : NlOkChars nl = true) :
    ∀ c, (tl ++ nl).head? = some c → Char.isDigit c = false := by
  intro c hc
  rcases tailNl_head_cases htl hnl hc with rfl | rfl | rfl <;> rfl

theorem portTailOk_comp {port tl nl : List Char}
    (hport : PortOkChars port = true) (htl : TailOkChars tl = true)
    (hnl : NlOkChars nl = true) : portTailOk (port ++ (tl ++ nl)) = true := by
  rcases PortOkChars_cases hport with rfl | ⟨ds, rfl, hne, hall⟩
  · rw [List.nil_append, portTailOk]
    have hhead : ((tl ++ nl).head? == some ':') = false := by
      cases hh : (tl ++ nl).head? with
      | none => rfl
      | some c => rcases tailNl_head_cases htl hnl hh with rfl | rfl | rfl <;> rfl
    rw [hhead]
    simpa using tailOk_comp htl hnl
  · cases ds with
    | nil => simp at hne
    | cons d dst =>
      obtain ⟨hd1, hall2⟩ : d.isDigit = true ∧ dst.all Char.isDigit = true := by
        simpa using hall
      have hstep : (':' :: (d :: dst)) ++ (tl ++ nl) = ':' :: d :: (dst ++ (tl ++ nl)) := by
        simp
      rw [hstep, portTailOk]
      simp only [List.head?_cons, List.tail_cons]
      rw [if_pos (by simp)]
      rw [if_pos (by simp [hd1])]
      have hdrop : (d :: (dst ++ (tl ++ nl))).dropWhile Char.isDigit = tl ++ nl := by
        have h1 : (d :: dst).all Char.isDigit = true := by simp [hd1, hall2]
        calc (d :: (dst ++ (tl ++ nl))).dropWhile Char.isDigit
            = ((d :: dst) ++ (tl ++ nl)).dropWhile Char.isDigit := by simp
          _ = (tl ++ nl).dropWhile Char.isDigit := dropWhile_append_all h1
          _ = tl ++ nl := dropWhile_head_neg (portTailNl_head_not_digit htl hnl)
      rw [hdrop]
      exact tailOk_comp htl hnl

theorem portTailOk_decomp {r : List Char} (h : portTailOk r = true) :
    ∃ port tl nl, r = port ++ (tl ++ nl) ∧ PortOkChars port = true ∧
      TailOkChars tl = true ∧ NlOkChars nl = true := by
  rw [portTailOk] at h
  cases hh : (r.head? == some ':') with
  | false =>
    rw [hh] at h
    simp only [Bool.false_eq_true, if_false] at h
    obtain ⟨tl, nl, hsplit, htl, hnl⟩ := tailOk_decomp h
    exact ⟨[], tl, nl, by simpa using hsplit, rfl, htl, hnl⟩
  | true =>
    rw [hh] at h
    simp only [if_true] at h
    obtain ⟨rt, rfl⟩ : ∃ rt, r = ':' :: rt := by
      cases r with
      | nil => simp at hh
      | cons a rt =>
        have : a = ':' := by simpa using hh
        subst this
        exact ⟨rt, rfl⟩
    simp only [List.tail_cons] at h
    cases hd : rt.head?.any Char.isDigit with
    | false =>
      rw [hd] at h
      simp only [Bool.false_eq_true, if_false] at h
      rw [tailOk_colon] at h
      cases h
    | true =>
      rw [hd] at h
      simp only [if_true] at h
      obtain ⟨tl, nl, hsplit, htl, hnl⟩ := tailOk_decomp h
      refine ⟨':' :: rt.takeWhile Char.isDigit, tl, nl, ?_, ?_, htl, hnl⟩
      · rw [List.cons_append]
        rw [← hsplit]
        rw [List.takeWhile_append_dropWhile]
      · have h1 : rt.takeWhile Char.isDigit ≠ [] := by
          cases rt with
          | nil => simp at hd
          | cons d rtt =>
            have hdd : Char.isDigit d = true := by simpa using hd
            simp [List.takeWhile_cons, hdd]
        simp [PortOkChars, h1, all_takeWhile_self]

/-- Soundness and completeness of the hand-compiled regex checker with
respect to the declarative amended URL shape. -/
theorem is_valid_url_iff_shape (u : String) :
    is_valid_url u = true ↔ UrlShapeAmended u := by
  constructor
  · intro h
    rw [is_valid_url] at h
    cases hs : stripSchemeChars u.data with
    | none => rw [hs] at h; cases h
    | some rest =>
      rw [hs] at h
      obtain ⟨hhost, hpt⟩ := band_parts h
      obtain ⟨sch, hsch, hcs⟩ := stripSchemeChars_some hs
      obtain ⟨port, tl, nl, hrest, hport, htl, hnl⟩ := portTailOk_decomp hpt
      refine ⟨sch, rest.takeWhile isHostChar, port, tl, nl, ?_, hsch,
        all_takeWhile_self rest, hhost, hport, htl, hnl⟩
      rw [hcs]
      simp only [List.append_assoc]
      rw [← hrest, List.takeWhile_append_dropWhile]
  · rintro ⟨sch, host, port, tl, nl, heq, hsch, hhost, hhostok, hport, htl, hnl⟩
    rw [is_valid_url, heq]
    have heq2 : host ++ port ++ tl ++ nl = host ++ (port ++ (tl ++ nl)) := by
      simp [List.append_assoc]
    rw [heq2, stripSchemeChars_of_scheme hsch]
    have hsplit := takeWhile_append_eq hhost (portTailNl_head_not_host hport htl hnl)
    dsimp only
    rw [hsplit.1, hsplit.2, hhostok, portTailOk_comp hport htl hnl]
    rfl

/-- One rejection outcome from `shorten_url` iff the URL fails the regex:
the 400-class responses happen exactly for inputs `is_valid_url` rejects
(the empty string is rejected by the falsiness check first, and is also
rejected by the regex). -/
theorem shorten_rejects_iff (gen : Nat → String) (now : PyDateTime) (fuel : Nat)
    (s : Store) (u : String) :
    (shorten_url gen now fuel s (some u)).outcome.isBadRequest = true ↔
      is_valid_url u = false := by
  by_cases hu : u = ""
  · subst hu
    exact ⟨fun _ => by decide, fun _ => rfl⟩
  · have hne : (u == "") = false := beq_eq_false_iff_ne.mpr hu
    cases hv : is_valid_url u with
    | false =>
      simp [shorten_url, hne, hv, ShortenOutcome.isBadRequest]
    | true =>
      simp only [shorten_url, hne, hv]
      cases hf : findByOriginalUrl s u with
      | some r => simp [hf, ShortenOutcome.isBadRequest]
      | none =>
        cases hg : genLoop gen (fun c => (findByShortCode s c).isSome) 0 fuel with
        | none => simp [hf, hg, ShortenOutcome.isBadRequest]
        | some cn =>
          obtain ⟨c0, n⟩ := cn
          simp [hf, hg, ShortenOutcome.isBadRequest]

/-- Claim C6, counterexample: the code accepts URLs outside the spec's
URL-shape policy — a URL with a trailing newline (admitted by Python's `$`),
and a dotted quad whose groups exceed 255 and thus is not an IPv4 address
(nor `localhost`, nor a domain, whose TLD must be alphabetic). -/
theorem c6_counterexample :
    (is_valid_url ("http://example.com\n") = true ∧
      urlShapeSpec ("http://example.com\n") = false) ∧
    is_valid_url ("http://999.999.999.999") = true ∧
    urlShapeSpec ("http://999.999.999.999") = false := by
  decide

/-- Claim C6 (amended): `shorten_url` rejects an input with an
`InvalidUrlError`-class 400 exactly when the input fails the code's URL
shape, and that shape is exactly: case-insensitive scheme `http`/`https`,
`://`, a host over alphanumerics/dots/hyphens that is a dotted domain with
1-63-character labels and a final 2-6-letter TLD (optional trailing dot), or
`localhost`, or four dot-separated groups of one to three digits (octet
values not range-checked), then an optional `:`-digits port, then an empty
tail, a bare `/`, or `/` or `?` followed by one or more non-whitespace
characters, optionally followed by one final newline. -/
theorem c6_amended_accept_iff_shape :
    (∀ (gen : Nat → String) (now : PyDateTime) (fuel : Nat) (s : Store) (u : String),
      (shorten_url gen now fuel s (some u)).outcome.isBadRequest = true ↔
        is_valid_url u = false) ∧
    (∀ u : String, is_valid_url u = true ↔ UrlShapeAmended u) :=
  ⟨shorten_rejects_iff, is_valid_url_iff_shape⟩

end UrlShortener
